import Mathlib

/-!
# Verification of the TTT.EYE audio pipeline

Shallow embedding of the audio pipeline of this repository:
`src/utils/audioUtils.ts` (codec, resampler, PCM frame builder) and the
audio-scheduling part of `src/components/ScreenStream.tsx` (playback
scheduler, ducking/interruption controller), together with proofs of the
specified properties.

Bytes are modelled as natural numbers (values < 256 for `Uint8Array`
contents), transport text as `List Char`, audio samples and clock times as
rationals.
-/

namespace TTTEye

/-! ## Codec (`src/utils/audioUtils.ts`: `encodeAudio`, `decodeAudio`)

`encodeAudio` builds a binary string from the byte buffer in 0x8000-byte
chunks (`String.fromCharCode.apply` on each `subarray`, one character per
byte) and base64-encodes it with the host `btoa`.  `decodeAudio` applies
the host `atob` and stores each character code into a `Uint8Array`
(reduction mod 256).  `btoa`/`atob` are modelled by standard base64 over
byte sequences. -/

/-- The standard base64 alphabet used by the host `btoa` and `atob`. -/
def b64alphabet : List Char :=
  "ABCDEFGHIJKLMNOPQRSTUVWXYZabcdefghijklmnopqrstuvwxyz0123456789+/".toList

/-- Base64 character of a 6-bit group. -/
def encB64 (n : ℕ) : Char := b64alphabet.getD n 'A'

/-- 6-bit group of a base64 character (its index in the alphabet). -/
def decB64 (c : Char) : ℕ := b64alphabet.indexOf c

/-- Base64 encoding of a byte sequence: three bytes become four characters,
a trailing group of one or two bytes is padded with `'='` (the host `btoa`
applied to a binary string). -/
def b64encode : List ℕ → List Char
  | [] => []
  | [b0] => [encB64 (b0 / 4), encB64 (b0 % 4 * 16), '=', '=']
  | [b0, b1] =>
      [encB64 (b0 / 4), encB64 (b0 % 4 * 16 + b1 / 16), encB64 (b1 % 16 * 4), '=']
  | b0 :: b1 :: b2 :: rest =>
      encB64 (b0 / 4) :: encB64 (b0 % 4 * 16 + b1 / 16) ::
        encB64 (b1 % 16 * 4 + b2 / 64) :: encB64 (b2 % 64) :: b64encode rest

/-- Base64 decoding of well-formed padded text (the host `atob` on the
output of `btoa`): each group of four characters yields three bytes, or one
or two bytes when the group carries `'='` padding. -/
def b64decode : List Char → List ℕ
  | c0 :: c1 :: c2 :: c3 :: rest =>
      if c2 = '=' then [decB64 c0 * 4 + decB64 c1 / 16]
      else if c3 = '=' then
        [decB64 c0 * 4 + decB64 c1 / 16, decB64 c1 % 16 * 16 + decB64 c2 / 4]
      else
        (decB64 c0 * 4 + decB64 c1 / 16) ::
          (decB64 c1 % 16 * 16 + decB64 c2 / 4) ::
          (decB64 c2 % 4 * 64 + decB64 c3) :: b64decode rest
  | _ => []

/-- The chunked loop of `encodeAudio`: the byte buffer is consumed in chunks
of 0x8000 bytes (`bytes.subarray(i, i + chunkSize)`), each converted to
characters and appended to the accumulating binary string.  One character
per byte, so the binary string is the byte sequence itself, assembled
chunkwise. -/
def chunkConcat (bytes : List ℕ) : List ℕ :=
  if h : bytes = [] then []
  else bytes.take 32768 ++ chunkConcat (bytes.drop 32768)
termination_by bytes.length
decreasing_by
  have hpos : 0 < bytes.length := List.length_pos.mpr h
  simp only [List.length_drop]
  omega

/-- `encodeAudio` (`src/utils/audioUtils.ts`): chunked binary string, then
`btoa`. -/
def encodeAudio (bytes : List ℕ) : List Char := b64encode (chunkConcat bytes)

/-- `decodeAudio` (`src/utils/audioUtils.ts`): `atob`, then `charCodeAt` of
each character written into a `Uint8Array` (values reduced mod 256). -/
def decodeAudio (s : List Char) : List ℕ := (b64decode s).map (fun b => b % 256)

/-- The chunked assembly reproduces the byte sequence: chunk boundaries are
not observable. -/
theorem chunkConcat_eq (bytes : List ℕ) : chunkConcat bytes = bytes := by
  by_cases h : bytes = []
  · subst h
    simp [chunkConcat]
  · have hlt : (bytes.drop 32768).length < bytes.length := by
      have hpos : 0 < bytes.length := List.length_pos.mpr h
      simp only [List.length_drop]
      omega
    rw [chunkConcat, dif_neg h, chunkConcat_eq (bytes.drop 32768)]
    exact List.take_append_drop 32768 bytes
termination_by bytes.length

/-- Decoding a base64 character of a valid 6-bit group recovers the group. -/
theorem decB64_encB64 : ∀ n < 64, decB64 (encB64 n) = n := by decide

/-- Valid 6-bit groups never encode to the padding character. -/
theorem encB64_ne_pad : ∀ n < 64, encB64 n ≠ '=' := by decide

/-- Base64 decoding inverts base64 encoding on byte sequences. -/
theorem b64decode_b64encode : ∀ l : List ℕ, (∀ b ∈ l, b < 256) →
    b64decode (b64encode l) = l
  | [], _ => rfl
  | [b0], h => by
      have hb0 : b0 < 256 := h b0 (by simp)
      have e0 := decB64_encB64 (b0 / 4) (by omega)
      have e1 := decB64_encB64 (b0 % 4 * 16) (by omega)
      simp only [b64encode, b64decode, if_pos rfl, if_true, eq_self_iff_true, e0, e1]
      have : b0 / 4 * 4 + b0 % 4 * 16 / 16 = b0 := by omega
      rw [this]
  | [b0, b1], h => by
      have hb0 : b0 < 256 := h b0 (by simp)
      have hb1 : b1 < 256 := h b1 (by simp)
      have e0 := decB64_encB64 (b0 / 4) (by omega)
      have e1 := decB64_encB64 (b0 % 4 * 16 + b1 / 16) (by omega)
      have e2 := decB64_encB64 (b1 % 16 * 4) (by omega)
      have n2 := encB64_ne_pad (b1 % 16 * 4) (by omega)
      simp only [b64encode, b64decode, if_neg n2, if_pos rfl, if_true, eq_self_iff_true, e0, e1, e2]
      have g0 : b0 / 4 * 4 + (b0 % 4 * 16 + b1 / 16) / 16 = b0 := by omega
      have g1 : (b0 % 4 * 16 + b1 / 16) % 16 * 16 + b1 % 16 * 4 / 4 = b1 := by omega
      rw [g0, g1]
  | b0 :: b1 :: b2 :: rest, h => by
      have hb0 : b0 < 256 := h b0 (by simp)
      have hb1 : b1 < 256 := h b1 (by simp)
      have hb2 : b2 < 256 := h b2 (by simp)
      have e0 := decB64_encB64 (b0 / 4) (by omega)
      have e1 := decB64_encB64 (b0 % 4 * 16 + b1 / 16) (by omega)
      have e2 := decB64_encB64 (b1 % 16 * 4 + b2 / 64) (by omega)
      have e3 := decB64_encB64 (b2 % 64) (by omega)
      have n2 := encB64_ne_pad (b1 % 16 * 4 + b2 / 64) (by omega)
      have n3 := encB64_ne_pad (b2 % 64) (by omega)
      have ih := b64decode_b64encode rest (fun b hb => h b (by simp [hb]))
      simp only [b64encode, b64decode, if_neg n2, if_neg n3, e0, e1, e2, e3, ih]
      have g0 : b0 / 4 * 4 + (b0 % 4 * 16 + b1 / 16) / 16 = b0 := by omega
      have g1 : (b0 % 4 * 16 + b1 / 16) % 16 * 16 + (b1 % 16 * 4 + b2 / 64) / 4 = b1 := by
        omega
      have g2 : (b1 % 16 * 4 + b2 / 64) % 4 * 64 + b2 % 64 = b2 := by omega
      rw [g0, g1, g2]

/-- Round trip of the repository codec on any byte buffer. -/
theorem decodeAudio_encodeAudio (B : List ℕ) (h : ∀ b ∈ B, b < 256) :
    decodeAudio (encodeAudio B) = B := by
  unfold decodeAudio encodeAudio
  rw [chunkConcat_eq, b64decode_b64encode B h]
  have : B.map (fun b => b % 256) = B.map id :=
    List.map_congr_left (fun b hb => Nat.mod_eq_of_lt (h b hb))
  simpa using this

/-- C1: for every byte buffer B (entries byte-valued, any length, including
0 and lengths spanning the 0x8000 chunk boundary), `decodeAudio
(encodeAudio B) = B`; moreover the chunked encoding equals the unchunked
base64 encoding of B, so chunk boundaries are not observable in the
output. -/
theorem C1_codec_roundtrip (B : List ℕ) (h : ∀ b ∈ B, b < 256) :
    decodeAudio (encodeAudio B) = B ∧ encodeAudio B = b64encode B := by
  refine ⟨decodeAudio_encodeAudio B h, ?_⟩
  unfold encodeAudio
  rw [chunkConcat_eq]

/-- Witness for C1 at a concrete five-byte buffer (padding case with two
trailing bytes). -/
theorem C1_codec_roundtrip_witness :
    (∀ b ∈ [0, 77, 255, 128, 1], b < 256) ∧
      (decodeAudio (encodeAudio [0, 77, 255, 128, 1]) = [0, 77, 255, 128, 1] ∧
        encodeAudio [0, 77, 255, 128, 1] = b64encode [0, 77, 255, 128, 1]) :=
  ⟨by decide, C1_codec_roundtrip [0, 77, 255, 128, 1] (by decide)⟩

/-! ## PCM frame builder (`src/utils/audioUtils.ts`: `createPcmBlob`) and
inbound decode (`src/components/ScreenStream.tsx`: `decodeAudioData`) -/

/-- JS `ToIntegerOrInfinity` on a finite number: truncation toward zero
(applied when a number is stored into an `Int16Array`). -/
def jsTrunc (q : ℚ) : ℤ := if 0 ≤ q then ⌊q⌋ else ⌈q⌉

/-- Reduction of an integer into the signed 16-bit range, as storing into an
`Int16Array` does (two's complement, modulo 2^16). -/
def int16Wrap (x : ℤ) : ℤ := (x + 32768) % 65536 - 32768

/-- One sample of `createPcmBlob`: clamp to [-1, 1] via
`Math.max(-1, Math.min(1, data[i]))`, scale negatives by 0x8000 and
non-negatives by 0x7FFF, store as a signed 16-bit integer. -/
def toPcm16Sample (x : ℚ) : ℤ :=
  let s := max (-1) (min 1 x)
  int16Wrap (jsTrunc (if s < 0 then s * 32768 else s * 32767))

/-- Little-endian byte pair of a signed 16-bit sample (the `Uint8Array`
view of the `Int16Array` buffer taken by `createPcmBlob`). -/
def int16ToBytes (v : ℤ) : List ℕ :=
  [(v % 65536).toNat % 256, (v % 65536).toNat / 256]

/-- Byte buffer of a sequence of signed 16-bit samples, little-endian. -/
def int16ListToBytes : List ℤ → List ℕ
  | [] => []
  | v :: vs => int16ToBytes v ++ int16ListToBytes vs

/-- The blob produced by `createPcmBlob`: base64 text plus MIME tag. -/
structure PcmBlob where
  data : List Char
  mimeType : String
deriving DecidableEq

/-- `createPcmBlob` (`src/utils/audioUtils.ts`): clamp and scale every
sample to signed 16 bits, then base64-encode the little-endian byte view
and tag the result `audio/pcm;rate=16000`. -/
def createPcmBlob (data : List ℚ) : PcmBlob :=
  { data := encodeAudio (int16ListToBytes (data.map toPcm16Sample)),
    mimeType := "audio/pcm;rate=16000" }

/-- Signed 16-bit values of a little-endian byte buffer (the `Int16Array`
view built by `decodeAudioData`); a trailing odd byte is not representable
and is handled in `decodeAudioData` itself. -/
def bytesToInt16 : List ℕ → List ℤ
  | [] => []
  | [_] => []
  | b0 :: b1 :: rest =>
      (if b0 % 256 + b1 % 256 * 256 < 32768 then
          ((b0 % 256 + b1 % 256 * 256 : ℕ) : ℤ)
        else ((b0 % 256 + b1 % 256 * 256 : ℕ) : ℤ) - 65536) :: bytesToInt16 rest

/-- `decodeAudioData` (`src/components/ScreenStream.tsx`): reinterpret the
byte buffer as an `Int16Array` (the constructor throws on an odd byte
length, modelled as `none`), compute `frameCount = dataInt16.length /
numChannels` and call `ctx.createBuffer(numChannels, frameCount, rate)`.
`createBuffer` receives the IDL-truncated frame count
`⌊samples / channels⌋` and throws `NotSupportedError` when that count is
zero (also modelled as `none`; this covers empty input and a channel count
exceeding the sample count, including the `numChannels = 0` case, where
the real division yields Infinity and IDL conversion yields 0).  Otherwise
each channel is filled with `dataInt16[i * numChannels + channel] / 32768`;
the loop's writes past the buffer end (on misalignment) are dropped by the
host, so the effective frame count is the floor (Nat division). -/
def decodeAudioData (data : List ℕ) (numChannels : ℕ) : Option (List (List ℚ)) :=
  if data.length % 2 ≠ 0 then none
  else if (bytesToInt16 data).length / numChannels = 0 then none
  else
    some ((List.range numChannels).map fun channel =>
      (List.range ((bytesToInt16 data).length / numChannels)).map fun i =>
        (((bytesToInt16 data).getD (i * numChannels + channel) 0 : ℤ) : ℚ) / 32768)

/-- The `Int16Array` view holds one sample per byte pair. -/
theorem bytesToInt16_length : ∀ l : List ℕ, (bytesToInt16 l).length = l.length / 2
  | [] => by simp [bytesToInt16]
  | [b] => by simp [bytesToInt16]
  | b0 :: b1 :: rest => by
      simp only [bytesToInt16, List.length_cons, bytesToInt16_length rest]
      omega

/-- C5 fails on the code: a six-byte buffer holds three 16-bit samples,
which is not evenly divisible by two channels, yet `decodeAudioData`
succeeds — no `FrameAlignmentError` exists in the code and no frame is
dropped. -/
theorem C5_counterexample :
    (bytesToInt16 [0, 0, 0, 0, 0, 0]).length % 2 = 1 ∧
      decodeAudioData [0, 0, 0, 0, 0, 0] 2 ≠ none := by decide

/-- C5 amended: `decodeAudioData` computes the effective frame count
`⌊totalSamples / numChannels⌋` (which equals `totalSamples / numChannels`
exactly when the sample count is evenly divisible); misalignment with the
channel count does not fail — the result is silently truncated.  The
failing inputs are an odd byte length, which the `Int16Array` construction
rejects, and a zero truncated frame count (empty input, or more channels
than samples), which `createBuffer` rejects with `NotSupportedError`. -/
theorem C5_frame_count (data : List ℕ) (c : ℕ) (hc : 0 < c) :
    (data.length % 2 = 0 → 1 ≤ data.length / 2 / c →
      ∃ chans, decodeAudioData data c = some chans ∧ chans.length = c ∧
        ∀ chd ∈ chans, chd.length = data.length / 2 / c) ∧
    (data.length % 2 = 1 → decodeAudioData data c = none) ∧
    (data.length / 2 / c = 0 → decodeAudioData data c = none) := by
  refine ⟨?_, ?_, ?_⟩
  · intro he hf
    have hsome : decodeAudioData data c =
        some ((List.range c).map fun channel =>
          (List.range ((bytesToInt16 data).length / c)).map fun i =>
            (((bytesToInt16 data).getD (i * c + channel) 0 : ℤ) : ℚ) / 32768) := by
      rw [decodeAudioData, if_neg (by omega),
        if_neg (by rw [bytesToInt16_length]; exact Nat.pos_iff_ne_zero.mp hf)]
    refine ⟨_, hsome, by simp, ?_⟩
    intro chd hchd
    simp only [List.mem_map, List.mem_range] at hchd
    obtain ⟨channel, -, rfl⟩ := hchd
    simp [bytesToInt16_length]
  · intro ho
    rw [decodeAudioData, if_pos (by omega)]
  · intro hz
    rw [decodeAudioData]
    rcases Nat.mod_two_eq_zero_or_one data.length with he | ho
    · rw [if_neg (by omega), if_pos (by rw [bytesToInt16_length]; exact hz)]
    · rw [if_pos (by omega)]

/-- Witness for C5 (amended) at a two-byte mono buffer. -/
theorem C5_frame_count_witness :
    0 < 1 ∧
      (([0, 0] : List ℕ).length % 2 = 0 → 1 ≤ ([0, 0] : List ℕ).length / 2 / 1 →
        ∃ chans, decodeAudioData [0, 0] 1 = some chans ∧ chans.length = 1 ∧
          ∀ chd ∈ chans, chd.length = ([0, 0] : List ℕ).length / 2 / 1) ∧
      (([0, 0] : List ℕ).length % 2 = 1 → decodeAudioData [0, 0] 1 = none) ∧
      (([0, 0] : List ℕ).length / 2 / 1 = 0 → decodeAudioData [0, 0] 1 = none) :=
  ⟨by decide, C5_frame_count [0, 0] 1 (by decide)⟩

/-- Ceiling of the rational -32768 (used for the extreme negative sample). -/
theorem ceil_neg_32768 : ⌈(-32768 : ℚ)⌉ = -32768 := by
  rw [show (-32768 : ℚ) = ((-32768 : ℤ) : ℚ) by norm_num, Int.ceil_intCast]

/-- The clamped, scaled sample of a non-negative in-range input is the floor
of `x * 32767`, already inside the signed 16-bit range. -/
theorem toPcm16Sample_nonneg (x : ℚ) (h0 : 0 ≤ x) (h1 : x ≤ 1) :
    toPcm16Sample x = ⌊x * 32767⌋ := by
  have hs : max (-1) (min 1 x) = x := by
    rw [min_eq_right h1, max_eq_right (by linarith)]
  have hnot : ¬ x < 0 := not_lt.mpr h0
  have htr : jsTrunc (x * 32767) = ⌊x * 32767⌋ := by
    rw [jsTrunc, if_pos (by positivity)]
  have hflo : (0 : ℤ) ≤ ⌊x * 32767⌋ := Int.floor_nonneg.mpr (by positivity)
  have hfhi : ⌊x * 32767⌋ ≤ 32767 := by
    have hle : x * 32767 ≤ 32767 := by nlinarith
    calc ⌊x * 32767⌋ ≤ ⌊(32767 : ℚ)⌋ := Int.floor_le_floor hle
    _ = 32767 := by norm_num
  rw [toPcm16Sample, hs, if_neg hnot, htr, int16Wrap]
  omega

/-- The clamped, scaled sample of a negative in-range input is the ceiling
of `x * 32768`, already inside the signed 16-bit range. -/
theorem toPcm16Sample_neg (x : ℚ) (h0 : -1 ≤ x) (h1 : x < 0) :
    toPcm16Sample x = ⌈x * 32768⌉ := by
  have hs : max (-1) (min 1 x) = x := by
    rw [min_eq_right (by linarith), max_eq_right h0]
  have htr : jsTrunc (x * 32768) = ⌈x * 32768⌉ := by
    rw [jsTrunc, if_neg (by nlinarith)]
  have hclo : (-32768 : ℤ) ≤ ⌈x * 32768⌉ := by
    rw [show (-32768 : ℤ) = ⌈(-32768 : ℚ)⌉ from ceil_neg_32768.symm]
    exact Int.ceil_le_ceil (by nlinarith)
  have hchi : ⌈x * 32768⌉ ≤ 0 :=
    Int.ceil_le.mpr (by push_cast; nlinarith)
  rw [toPcm16Sample, hs, if_pos h1, htr, int16Wrap]
  omega

/-- The sample of 1 is the largest signed 16-bit value (no overflow). -/
theorem toPcm16Sample_one : toPcm16Sample 1 = 32767 := by
  rw [toPcm16Sample_nonneg 1 (by norm_num) (by norm_num)]
  norm_num

/-- The sample of -1 is the smallest signed 16-bit value. -/
theorem toPcm16Sample_neg_one : toPcm16Sample (-1) = -32768 := by
  rw [toPcm16Sample_neg (-1) (by norm_num) (by norm_num),
    show (-1 : ℚ) * 32768 = -32768 by norm_num, ceil_neg_32768]

/-- Inputs above 1 clamp to the sample of 1. -/
theorem toPcm16Sample_gt_one (x : ℚ) (hx : 1 < x) :
    toPcm16Sample x = toPcm16Sample 1 := by
  have hs : max (-1) (min 1 x) = max (-1) (min 1 (1 : ℚ)) := by
    rw [min_eq_left hx.le, min_self]
  simp only [toPcm16Sample, hs]

/-- Inputs below -1 clamp to the sample of -1. -/
theorem toPcm16Sample_lt_neg_one (x : ℚ) (hx : x < -1) :
    toPcm16Sample x = toPcm16Sample (-1) := by
  have hs : max (-1) (min 1 x) = max (-1) (min 1 (-1 : ℚ)) := by
    rw [min_eq_right (by linarith), min_eq_right (by norm_num),
      max_eq_left hx.le, max_self]
  simp only [toPcm16Sample, hs]

/-- Every produced sample lies in the signed 16-bit range. -/
theorem toPcm16Sample_range (x : ℚ) :
    -32768 ≤ toPcm16Sample x ∧ toPcm16Sample x ≤ 32767 := by
  rcases lt_or_le x (-1) with h1 | h1
  · rw [toPcm16Sample_lt_neg_one x h1, toPcm16Sample_neg_one]
    norm_num
  · rcases lt_or_le x 0 with h0 | h0
    · rw [toPcm16Sample_neg x h1 h0]
      constructor
      · rw [show (-32768 : ℤ) = ⌈(-32768 : ℚ)⌉ from ceil_neg_32768.symm]
        exact Int.ceil_le_ceil (by nlinarith)
      · have hc0 : ⌈x * 32768⌉ ≤ (0 : ℤ) := Int.ceil_le.mpr (by push_cast; nlinarith)
        exact le_trans hc0 (by norm_num)
    · rcases le_or_lt x 1 with hle | hgt
      · rw [toPcm16Sample_nonneg x h0 hle]
        constructor
        · exact le_trans (by norm_num) (Int.floor_nonneg.mpr (by positivity))
        · calc ⌊x * 32767⌋ ≤ ⌊(32767 : ℚ)⌋ := Int.floor_le_floor (by nlinarith)
          _ = 32767 := by norm_num
      · rw [toPcm16Sample_gt_one x hgt, toPcm16Sample_one]
        norm_num

/-- C7: every input sample is clamped to [-1, 1] before scaling — any value
above 1 yields exactly the sample of 1 (namely 32767 = 0x7FFF, no overflow)
and any value below -1 yields exactly the sample of -1 (namely -32768);
scaling is by 32768 for negative clamped values and by 32767 for
non-negative ones, and every output fits the signed 16-bit range. -/
theorem C7_clamp_scale (x : ℚ) :
    (1 < x → toPcm16Sample x = toPcm16Sample 1) ∧
    (x < -1 → toPcm16Sample x = toPcm16Sample (-1)) ∧
    toPcm16Sample 1 = 32767 ∧
    toPcm16Sample (-1) = -32768 ∧
    (0 ≤ x → x ≤ 1 → toPcm16Sample x = ⌊x * 32767⌋) ∧
    (-1 ≤ x → x < 0 → toPcm16Sample x = ⌈x * 32768⌉) ∧
    -32768 ≤ toPcm16Sample x ∧ toPcm16Sample x ≤ 32767 :=
  ⟨toPcm16Sample_gt_one x, toPcm16Sample_lt_neg_one x, toPcm16Sample_one,
    toPcm16Sample_neg_one, toPcm16Sample_nonneg x, toPcm16Sample_neg x,
    toPcm16Sample_range x⟩

/-- Witness for C7 at the out-of-range input 2. -/
theorem C7_clamp_scale_witness :
    (1 : ℚ) < 2 ∧ toPcm16Sample 2 = toPcm16Sample 1 :=
  ⟨by norm_num, (C7_clamp_scale 2).1 (by norm_num)⟩

/-! ## Inbound round trip (`createPcmBlob` then the codec then
`decodeAudioData`) -/

/-- The little-endian byte pair of a sample is byte-valued. -/
theorem int16ToBytes_lt (v : ℤ) : ∀ b ∈ int16ToBytes v, b < 256 := by
  intro b hb
  simp only [int16ToBytes, List.mem_cons, List.not_mem_nil, or_false] at hb
  have hm : (v % 65536).toNat < 65536 := by omega
  rcases hb with rfl | rfl
  · omega
  · omega

/-- Reading the byte pair back through the `Int16Array` view recovers the
sample, for samples in the signed 16-bit range. -/
theorem bytesToInt16_int16ToBytes (v : ℤ) (h1 : -32768 ≤ v) (h2 : v ≤ 32767) :
    bytesToInt16 (int16ToBytes v) = [v] := by
  simp only [int16ToBytes, bytesToInt16, List.cons.injEq, and_true]
  split <;> omega

/-- Sending one sample through `createPcmBlob`, the codec and
`decodeAudioData` (mono) yields exactly the stored 16-bit value divided by
32768. -/
theorem fromPcm16_createPcmBlob (f : ℚ) :
    decodeAudioData (decodeAudio (createPcmBlob [f]).data) 1 =
      some [[((toPcm16Sample f : ℤ) : ℚ) / 32768]] := by
  obtain ⟨hlo, hhi⟩ := toPcm16Sample_range f
  have hbytes : ∀ b ∈ int16ListToBytes [toPcm16Sample f], b < 256 := by
    intro b hb
    simp only [int16ListToBytes, List.append_nil] at hb
    exact int16ToBytes_lt (toPcm16Sample f) b hb
  have hdec : decodeAudio (createPcmBlob [f]).data
      = int16ListToBytes [toPcm16Sample f] := by
    rw [createPcmBlob]
    exact decodeAudio_encodeAudio _ hbytes
  have hlist : int16ListToBytes [toPcm16Sample f] = int16ToBytes (toPcm16Sample f) := by
    simp [int16ListToBytes]
  have hb16 : bytesToInt16 (int16ToBytes (toPcm16Sample f)) = [toPcm16Sample f] :=
    bytesToInt16_int16ToBytes _ hlo hhi
  rw [hdec, hlist, decodeAudioData, if_neg (by simp [int16ToBytes]), hb16,
    if_neg (by simp)]
  norm_num [List.range_succ]

/-- C6 fails on the code at f = 9999/10000: the returned sample is
32763/32768, which differs from f by more than 1/32768 (the encoder scales
non-negative values by 32767 and truncates, while the decoder divides by
32768). -/
theorem C6_counterexample :
    decodeAudioData (decodeAudio (createPcmBlob [(9999 / 10000 : ℚ)]).data) 1 =
      some [[(32763 : ℚ) / 32768]] ∧
    |(32763 : ℚ) / 32768 - 9999 / 10000| > 1 / 32768 := by
  have hv : toPcm16Sample (9999 / 10000 : ℚ) = 32763 := by
    rw [toPcm16Sample_nonneg (9999 / 10000 : ℚ) (by norm_num) (by norm_num)]
    norm_num
  constructor
  · rw [fromPcm16_createPcmBlob, hv]
    norm_num
  · norm_num [abs]

/-- C6 amended: the mono PCM16 round trip through `createPcmBlob`, the
codec and `decodeAudioData` reproduces a single in-range sample f to within
2/32768 (and to within 1/32768 when f is negative); the bound 1/32768 of
the original claim holds only on the negative side, because non-negative
samples are scaled by 32767 on encode but divided by 32768 on decode. -/
theorem C6_pcm_roundtrip (f : ℚ) (h0 : -1 ≤ f) (h1 : f ≤ 1) :
    decodeAudioData (decodeAudio (createPcmBlob [f]).data) 1 =
      some [[((toPcm16Sample f : ℤ) : ℚ) / 32768]] ∧
    |((toPcm16Sample f : ℤ) : ℚ) / 32768 - f| ≤ 2 / 32768 ∧
    (f < 0 → |((toPcm16Sample f : ℤ) : ℚ) / 32768 - f| ≤ 1 / 32768) := by
  refine ⟨fromPcm16_createPcmBlob f, ?_⟩
  rcases lt_or_le f 0 with hneg | hpos
  · have hv := toPcm16Sample_neg f h0 hneg
    have hle : f * 32768 ≤ ((⌈f * 32768⌉ : ℤ) : ℚ) := Int.le_ceil _
    have hlt : ((⌈f * 32768⌉ : ℤ) : ℚ) < f * 32768 + 1 := Int.ceil_lt_add_one _
    have hb : |((toPcm16Sample f : ℤ) : ℚ) / 32768 - f| ≤ 1 / 32768 := by
      rw [hv]
      rw [abs_le]
      constructor
      · linarith
      · linarith
    exact ⟨le_trans hb (by norm_num), fun _ => hb⟩
  · have hv := toPcm16Sample_nonneg f hpos h1
    have hle : ((⌊f * 32767⌋ : ℤ) : ℚ) ≤ f * 32767 := Int.floor_le _
    have hlt : f * 32767 - 1 < ((⌊f * 32767⌋ : ℤ) : ℚ) := Int.sub_one_lt_floor _
    refine ⟨?_, fun hf => absurd hf (not_lt.mpr hpos)⟩
    rw [hv, abs_le]
    constructor
    · linarith
    · linarith

/-- Witness for C6 (amended) at f = 0. -/
theorem C6_pcm_roundtrip_witness :
    (-1 : ℚ) ≤ 0 ∧ (0 : ℚ) ≤ 1 ∧
      (decodeAudioData (decodeAudio (createPcmBlob [(0 : ℚ)]).data) 1 =
          some [[((toPcm16Sample 0 : ℤ) : ℚ) / 32768]] ∧
        |((toPcm16Sample 0 : ℤ) : ℚ) / 32768 - 0| ≤ 2 / 32768 ∧
        ((0 : ℚ) < 0 → |((toPcm16Sample 0 : ℤ) : ℚ) / 32768 - 0| ≤ 1 / 32768)) :=
  ⟨by norm_num, by norm_num, C6_pcm_roundtrip 0 (by norm_num) (by norm_num)⟩

/-! ## Resampler (`src/utils/audioUtils.ts`: `downsampleTo16k`) -/

/-- JS `Math.round`: round half toward positive infinity. -/
def jsRound (q : ℚ) : ℤ := ⌊q + 1 / 2⌋

/-- Array read with an integer index; a read outside the array is modelled
as 0 (the in-bounds theorems below show the interpolation loop never
performs one under a positive source rate). -/
def getQ (l : List ℚ) (i : ℤ) : ℚ := if 0 ≤ i then l.getD i.toNat 0 else 0

/-- Output length of `downsampleTo16k`:
`Math.round(buffer.length / (inputRate / 16000))`. -/
def dsNewLength (n : ℕ) (inputRate : ℚ) : ℕ :=
  (jsRound ((n : ℚ) / (inputRate / 16000))).toNat

/-- Lower interpolation index `Math.floor(i * (inputRate / 16000))`. -/
def dsIndex1 (inputRate : ℚ) (i : ℕ) : ℤ := ⌊(i : ℚ) * (inputRate / 16000)⌋

/-- Upper interpolation index
`Math.min(Math.ceil(i * (inputRate / 16000)), buffer.length - 1)`. -/
def dsIndex2 (inputRate : ℚ) (n : ℕ) (i : ℕ) : ℤ :=
  min ⌈(i : ℚ) * (inputRate / 16000)⌉ ((n : ℤ) - 1)

/-- `downsampleTo16k` (`src/utils/audioUtils.ts`): identity at 16 kHz,
otherwise linear interpolation at the fractional source position
`i * ratio` for each output index. -/
def downsampleTo16k (buffer : List ℚ) (inputRate : ℚ) : List ℚ :=
  if inputRate = 16000 then buffer
  else
    (List.range (dsNewLength buffer.length inputRate)).map fun i =>
      getQ buffer (dsIndex1 inputRate i) *
          (1 - ((i : ℚ) * (inputRate / 16000) - (dsIndex1 inputRate i : ℚ))) +
        getQ buffer (dsIndex2 inputRate buffer.length i) *
          ((i : ℚ) * (inputRate / 16000) - (dsIndex1 inputRate i : ℚ))

/-- C8: for a positive source rate r1 ≠ 16000 the output length is exactly
`Math.round(|S| * 16000 / r1)` — in particular within 1 of the real value
`|S| * 16000 / r1` — and an empty input yields an empty output; at
r1 = 16000 the input is returned unchanged. -/
theorem C8_resampler_length (S : List ℚ) (r1 : ℚ) (hpos : 0 < r1) :
    (r1 ≠ 16000 →
      ((downsampleTo16k S r1).length : ℤ) = jsRound ((S.length : ℚ) * 16000 / r1) ∧
      |((downsampleTo16k S r1).length : ℚ) - (S.length : ℚ) * 16000 / r1| ≤ 1 ∧
      (S = [] → downsampleTo16k S r1 = [])) ∧
    (r1 = 16000 → downsampleTo16k S r1 = S) := by
  have hne0 : r1 ≠ 0 := ne_of_gt hpos
  constructor
  · intro hr
    have hq : (S.length : ℚ) / (r1 / 16000) = (S.length : ℚ) * 16000 / r1 :=
      div_div_eq_mul_div _ _ _
    have hnn : 0 ≤ (S.length : ℚ) * 16000 / r1 := by positivity
    have hjnn : 0 ≤ jsRound ((S.length : ℚ) * 16000 / r1) := by
      rw [jsRound]
      exact Int.floor_nonneg.mpr (by linarith)
    have hlen : (downsampleTo16k S r1).length = dsNewLength S.length r1 := by
      rw [downsampleTo16k, if_neg hr]
      simp
    have hcast : ((downsampleTo16k S r1).length : ℤ)
        = jsRound ((S.length : ℚ) * 16000 / r1) := by
      rw [hlen, dsNewLength, hq, Int.toNat_of_nonneg hjnn]
    refine ⟨hcast, ?_, ?_⟩
    · have hfl : ((jsRound ((S.length : ℚ) * 16000 / r1) : ℤ) : ℚ)
          ≤ (S.length : ℚ) * 16000 / r1 + 1 / 2 := Int.floor_le _
      have hfg : (S.length : ℚ) * 16000 / r1 + 1 / 2 - 1
          < ((jsRound ((S.length : ℚ) * 16000 / r1) : ℤ) : ℚ) := Int.sub_one_lt_floor _
      have hcq : ((downsampleTo16k S r1).length : ℚ)
          = ((jsRound ((S.length : ℚ) * 16000 / r1) : ℤ) : ℚ) := by
        exact_mod_cast hcast
      rw [hcq, abs_le]
      constructor
      · linarith
      · linarith
    · intro hS
      subst hS
      rw [downsampleTo16k, if_neg hr]
      have : dsNewLength ([] : List ℚ).length r1 = 0 := by
        simp [dsNewLength, jsRound]
        norm_num
      rw [this]
      simp
  · intro hr
    rw [downsampleTo16k, if_pos hr]

/-- Witness for C8 at a one-sample buffer and source rate 48000. -/
theorem C8_resampler_length_witness :
    (0 : ℚ) < 48000 ∧
      ((48000 : ℚ) ≠ 16000 →
        ((downsampleTo16k [0] 48000).length : ℤ)
            = jsRound ((([(0 : ℚ)] : List ℚ).length : ℚ) * 16000 / 48000) ∧
        |((downsampleTo16k [0] 48000).length : ℚ)
            - (([(0 : ℚ)] : List ℚ).length : ℚ) * 16000 / 48000| ≤ 1 ∧
        (([(0 : ℚ)] : List ℚ) = [] → downsampleTo16k [0] 48000 = [])) ∧
      ((48000 : ℚ) = 16000 → downsampleTo16k [0] 48000 = [0]) :=
  ⟨by decide, C8_resampler_length [0] 48000 (by decide)⟩

/-- C10: for a non-empty buffer of length n and a positive source rate
other than 16000, both interpolation indices of every loop iteration lie in
[0, n - 1]: the interpolation loop never reads past either end of the
input. -/
theorem C10_index_bounds (n : ℕ) (rate : ℚ) (i : ℕ) (hn : 1 ≤ n) (hr : 0 < rate)
    (hne : rate ≠ 16000) (hi : i < dsNewLength n rate) :
    0 ≤ dsIndex1 rate i ∧ dsIndex1 rate i < (n : ℤ) ∧
      0 ≤ dsIndex2 rate n i ∧ dsIndex2 rate n i < (n : ℤ) := by
  have hr0 : 0 < rate / 16000 := by positivity
  have hjr : (i : ℤ) < jsRound ((n : ℚ) / (rate / 16000)) := by
    rw [dsNewLength] at hi
    omega
  have hfl : ((jsRound ((n : ℚ) / (rate / 16000)) : ℤ) : ℚ)
      ≤ (n : ℚ) / (rate / 16000) + 1 / 2 := Int.floor_le _
  have hiq : (i : ℚ) + 1 ≤ ((jsRound ((n : ℚ) / (rate / 16000)) : ℤ) : ℚ) := by
    exact_mod_cast hjr
  have hkey : (i : ℚ) * (rate / 16000) < (n : ℚ) := by
    have h2 : (i : ℚ) * (rate / 16000)
        ≤ ((n : ℚ) / (rate / 16000) - 1 / 2) * (rate / 16000) :=
      mul_le_mul_of_nonneg_right (by linarith) hr0.le
    have h3 : ((n : ℚ) / (rate / 16000) - 1 / 2) * (rate / 16000)
        = (n : ℚ) - rate / 32000 := by
      field_simp
      ring
    linarith
  have hoi : (0 : ℚ) ≤ (i : ℚ) * (rate / 16000) := by positivity
  refine ⟨Int.floor_nonneg.mpr hoi, ?_, ?_, ?_⟩
  · rw [dsIndex1, Int.floor_lt]
    exact_mod_cast hkey
  · rw [dsIndex2]
    apply le_min
    · calc (0 : ℤ) = ⌈(0 : ℚ)⌉ := by rw [Int.ceil_zero]
      _ ≤ ⌈(i : ℚ) * (rate / 16000)⌉ := Int.ceil_le_ceil hoi
    · omega
  · rw [dsIndex2]
    calc min ⌈(i : ℚ) * (rate / 16000)⌉ ((n : ℤ) - 1) ≤ (n : ℤ) - 1 :=
      min_le_right _ _
    _ < (n : ℤ) := by omega

/-- Witness for C10 at n = 3, rate = 48000, i = 0. -/
theorem C10_index_bounds_witness :
    1 ≤ 3 ∧ (0 : ℚ) < 48000 ∧ (48000 : ℚ) ≠ 16000 ∧ 0 < dsNewLength 3 48000 ∧
      (0 ≤ dsIndex1 48000 0 ∧ dsIndex1 48000 0 < (3 : ℤ) ∧
        0 ≤ dsIndex2 48000 3 0 ∧ dsIndex2 48000 3 0 < (3 : ℤ)) :=
  ⟨by decide, by decide, by decide, by norm_num [dsNewLength, jsRound],
    C10_index_bounds 3 48000 0 (by decide) (by decide) (by decide)
      (by norm_num [dsNewLength, jsRound])⟩

/-! ## Outbound pipeline equivalence -/

/-- The deployed outbound pipeline: the capture context is created with
`sampleRate: 16000`, and each capture block is passed directly to
`createPcmBlob` (`scriptProcessor.onaudioprocess` in
`src/components/ScreenStream.tsx`). -/
def outboundUnit (block : List ℚ) : PcmBlob := createPcmBlob block

/-- The specified outbound pipeline: pass the capture block through the
resampler to 16 kHz before PCM16 encoding. -/
def outboundUnitResampled (block : List ℚ) (captureRate : ℚ) : PcmBlob :=
  createPcmBlob (downsampleTo16k block captureRate)

/-- C9: with the capture context fixed at 16000 Hz, the deployed pipeline
(createPcmBlob applied directly to the capture block) is extensionally
equal to the pipeline that inserts `downsampleTo16k(block, captureRate)`
before `createPcmBlob`: at `captureRate = 16000` the resampler returns its
input unchanged. -/
theorem C9_pipeline_equivalence (block : List ℚ) :
    outboundUnit block = outboundUnitResampled block 16000 := by
  rw [outboundUnit, outboundUnitResampled, downsampleTo16k, if_pos rfl]

/-! ## Playback scheduler and ducking/interruption controller
(`src/components/ScreenStream.tsx`, the `onmessage` callback)

The cross-callback state consists of the active source set
(`audioSourcesRef`), the timeline cursor (`nextStartTimeRef`, initially 0),
the secondary-source gain (`systemGainRef.current.gain`, set to 0.7 at
session start) and the `isModelSpeaking` flag.  Gain automation is modelled
by its anchor value and the endpoint of the most recently scheduled
automation event. -/

/-- The secondary-source gain parameter: `value` is the anchor most
recently set, `target` the endpoint of the most recently scheduled
automation event; with no ramp in flight the two coincide. -/
structure GainSched where
  value : ℚ
  target : ℚ
deriving DecidableEq

/-- `gain.cancelScheduledValues(t)`: discards pending automation, so the
gain holds at its anchor value. -/
def cancelScheduledValues (g : GainSched) : GainSched :=
  { value := g.value, target := g.value }

/-- `gain.setValueAtTime(v, t)`: sets the value directly — no ramp. -/
def setValueAtTime (g : GainSched) (v : ℚ) : GainSched :=
  { value := v, target := v }

/-- `gain.linearRampToValueAtTime(v, t)`: schedules a ramp from the anchor
toward v, which becomes the most recently scheduled target. -/
def linearRampToValueAtTime (g : GainSched) (v : ℚ) : GainSched :=
  { value := g.value, target := v }

/-- The cross-callback audio state of `ScreenStream`: identifiers of the
sources in `audioSourcesRef` (in insertion order), identifiers of sources
on which `stop()` has been called, the cursor `nextStartTimeRef`, the
secondary gain, and `isModelSpeaking`. -/
structure AudioState where
  sources : List ℕ
  stopped : List ℕ
  nextStartTime : ℚ
  gain : GainSched
  isModelSpeaking : Bool
deriving DecidableEq

/-- State at session start: no sources, cursor 0 (`useRef(0)`), secondary
gain at its nominal value 0.7 (`systemGain.gain.value = 0.7`). -/
def initState : AudioState :=
  { sources := [], stopped := [], nextStartTime := 0,
    gain := { value := 7 / 10, target := 7 / 10 }, isModelSpeaking := false }

/-- The cursor/start-time step of the inbound-audio branch of `onmessage`:
if the cursor has fallen behind the output device's current time, reset it
to `currentTime + 0.05`; the frame starts at the (possibly reset) cursor
and the cursor then advances by the frame's duration
`sampleCount / 24000` (mono at 24000 Hz), regardless of real time elapsed.
Returns (start time, new cursor). -/
def scheduleFrame (currentTime : ℚ) (sampleCount : ℕ) (cursor : ℚ) : ℚ × ℚ :=
  let start := if cursor < currentTime then currentTime + 1 / 20 else cursor
  (start, start + (sampleCount : ℚ) / 24000)

/-- Start times of a sequence of inbound frames (each given by the output
context's current time at arrival and its sample count), handled in
order. -/
def runSched (cursor : ℚ) : List (ℚ × ℕ) → List ℚ
  | [] => []
  | f :: fs =>
      (scheduleFrame f.1 f.2 cursor).1 ::
        runSched (scheduleFrame f.1 f.2 cursor).2 fs

/-- The three events that touch the audio state: an inbound audio frame
(output-context current time, 16-bit sample count, fresh identifier of the
created source node), the `ended` listener of a source, and the
`interrupted` signal. -/
inductive AudioEvent
  | frame (currentTime : ℚ) (sampleCount : ℕ) (id : ℕ)
  | ended (id : ℕ)
  | interrupted

/-- The `interrupted` branch of `onmessage`: `stop()` every active source,
clear the set, reset the cursor to 0, clear `isModelSpeaking`, cancel any
in-flight gain automation and set the secondary gain directly to 0.7. -/
def handleInterrupted (st : AudioState) : AudioState :=
  { sources := [],
    stopped := st.stopped ++ st.sources,
    nextStartTime := 0,
    gain := setValueAtTime (cancelScheduledValues st.gain) (7 / 10),
    isModelSpeaking := false }

/-- The inbound-audio branch of `onmessage`: schedule the frame at the
cursor (after the idle-gap reset), cancel pending gain automation, anchor
the gain at its current value and ramp it to 0 over 50 ms (ducking), start
the source, advance the cursor by the frame's duration and add the source
to the active set (`Set.add`: a no-op on an already-present member). -/
def handleFrame (currentTime : ℚ) (sampleCount : ℕ) (id : ℕ)
    (st : AudioState) : AudioState :=
  { sources := if id ∈ st.sources then st.sources else st.sources ++ [id],
    stopped := st.stopped,
    nextStartTime := (scheduleFrame currentTime sampleCount st.nextStartTime).2,
    gain := linearRampToValueAtTime
      (setValueAtTime (cancelScheduledValues st.gain) st.gain.value) 0,
    isModelSpeaking := true }

/-- The `ended` listener of a source: remove it from the active set
(`Set.delete`); when the set becomes empty, clear `isModelSpeaking`,
cancel pending gain automation, anchor the gain at 0 and ramp it back to
0.7 over 200 ms. -/
def handleEnded (id : ℕ) (st : AudioState) : AudioState :=
  if (st.sources.erase id).length = 0 then
    { sources := st.sources.erase id,
      stopped := st.stopped,
      nextStartTime := st.nextStartTime,
      gain := linearRampToValueAtTime
        (setValueAtTime (cancelScheduledValues st.gain) 0) (7 / 10),
      isModelSpeaking := false }
  else
    { st with sources := st.sources.erase id }

/-- One event step of the audio pipeline. -/
def step (st : AudioState) : AudioEvent → AudioState
  | AudioEvent.frame t n id => handleFrame t n id st
  | AudioEvent.ended id => handleEnded id st
  | AudioEvent.interrupted => handleInterrupted st

/-- The pipeline state after a sequence of events from session start. -/
def run (es : List AudioEvent) : AudioState := es.foldl step initState

/-- Adjacent start times of `runSched`: non-decreasing, and consecutive
when the cursor has not fallen behind the device time at the later
frame. -/
theorem runSched_pair (cursor : ℚ) (fs : List (ℚ × ℕ)) (i : ℕ)
    (hi : i + 1 < fs.length) :
    (runSched cursor fs).getD i 0 ≤ (runSched cursor fs).getD (i + 1) 0 ∧
    ((fs.getD (i + 1) (0, 0)).1
        ≤ (runSched cursor fs).getD i 0 + ((fs.getD i (0, 0)).2 : ℚ) / 24000 →
      (runSched cursor fs).getD (i + 1) 0 =
        (runSched cursor fs).getD i 0 + ((fs.getD i (0, 0)).2 : ℚ) / 24000) := by
  induction fs generalizing cursor i with
  | nil => simp at hi
  | cons f fs ih =>
    cases i with
    | zero =>
        cases fs with
        | nil => simp at hi
        | cons g fs2 =>
            have hd : (0 : ℚ) ≤ (f.2 : ℚ) / 24000 := by positivity
            simp only [runSched, List.getD_cons_zero, List.getD_cons_succ,
              scheduleFrame]
            split_ifs with h1 h2 h2
            · constructor
              · linarith
              · intro hc
                linarith
            · constructor
              · linarith
              · intro hc
                rfl
            · constructor
              · linarith
              · intro hc
                linarith
            · constructor
              · linarith
              · intro hc
                rfl
    | succ j =>
        have hj : j + 1 < fs.length := by
          simpa using hi
        simp only [runSched, List.getD_cons_succ]
        exact ih (scheduleFrame f.1 f.2 cursor).2 j hj

/-- C2: the cursor advances by exactly the frame's duration
(`sampleCount / 24000`) past the chosen start time on every frame,
regardless of real time elapsed; over any sequence of inbound frames
handled in order the scheduled start times are non-decreasing, and each
start time equals the previous start time plus the previous frame's
duration except when the cursor had fallen behind the device's current
time (idle gap, where the cursor is reset to `currentTime + 0.05`). -/
theorem C2_scheduling (cursor : ℚ) (fs : List (ℚ × ℕ)) (i : ℕ)
    (hi : i + 1 < fs.length) :
    (∀ t c, ∀ n : ℕ, (scheduleFrame t n c).2
        = (scheduleFrame t n c).1 + (n : ℚ) / 24000) ∧
    (runSched cursor fs).getD i 0 ≤ (runSched cursor fs).getD (i + 1) 0 ∧
    ((fs.getD (i + 1) (0, 0)).1
        ≤ (runSched cursor fs).getD i 0 + ((fs.getD i (0, 0)).2 : ℚ) / 24000 →
      (runSched cursor fs).getD (i + 1) 0 =
        (runSched cursor fs).getD i 0 + ((fs.getD i (0, 0)).2 : ℚ) / 24000) :=
  ⟨fun _ _ _ => rfl, (runSched_pair cursor fs i hi).1, (runSched_pair cursor fs i hi).2⟩

/-- Witness for C2 at two frames of 2400 samples arriving at device time 0. -/
theorem C2_scheduling_witness :
    0 + 1 < ([((0 : ℚ), 2400), ((0 : ℚ), 2400)] : List (ℚ × ℕ)).length ∧
      ((∀ t c, ∀ n : ℕ, (scheduleFrame t n c).2
          = (scheduleFrame t n c).1 + (n : ℚ) / 24000) ∧
        (runSched 0 [((0 : ℚ), 2400), ((0 : ℚ), 2400)]).getD 0 0
            ≤ (runSched 0 [((0 : ℚ), 2400), ((0 : ℚ), 2400)]).getD (0 + 1) 0 ∧
        ((([((0 : ℚ), 2400), ((0 : ℚ), 2400)] : List (ℚ × ℕ)).getD (0 + 1) (0, 0)).1
            ≤ (runSched 0 [((0 : ℚ), 2400), ((0 : ℚ), 2400)]).getD 0 0 +
              ((([((0 : ℚ), 2400), ((0 : ℚ), 2400)] : List (ℚ × ℕ)).getD 0 (0, 0)).2 : ℚ)
                / 24000 →
          (runSched 0 [((0 : ℚ), 2400), ((0 : ℚ), 2400)]).getD (0 + 1) 0 =
            (runSched 0 [((0 : ℚ), 2400), ((0 : ℚ), 2400)]).getD 0 0 +
              ((([((0 : ℚ), 2400), ((0 : ℚ), 2400)] : List (ℚ × ℕ)).getD 0 (0, 0)).2 : ℚ)
                / 24000)) :=
  ⟨by decide, C2_scheduling 0 [((0 : ℚ), 2400), ((0 : ℚ), 2400)] 0 (by decide)⟩

/-- C3: handling the `interrupted` signal stops every previously scheduled
source — regardless of how many were pending — leaves the active playback
set empty, resets the timeline cursor to zero, and, after cancelling any
in-flight gain automation, sets the secondary gain directly to the nominal
0.7 with no ramp left in flight (anchor and target coincide at 0.7). -/
theorem C3_interruption_clears (st : AudioState) :
    (step st AudioEvent.interrupted).sources = [] ∧
    (∀ u ∈ st.sources, u ∈ (step st AudioEvent.interrupted).stopped) ∧
    (step st AudioEvent.interrupted).nextStartTime = 0 ∧
    (step st AudioEvent.interrupted).gain.value = 7 / 10 ∧
    (step st AudioEvent.interrupted).gain.target = 7 / 10 ∧
    (step st AudioEvent.interrupted).isModelSpeaking = false := by
  refine ⟨rfl, ?_, rfl, rfl, rfl, rfl⟩
  intro u hu
  simp [step, handleInterrupted, hu]

/-- A sample state with two pending sources mid-ramp. -/
def exState : AudioState :=
  { sources := [4, 7], stopped := [], nextStartTime := 3,
    gain := { value := 7 / 10, target := 0 }, isModelSpeaking := true }

/-- Witness for C3 at a state with two pending sources mid-ramp. -/
theorem C3_interruption_clears_witness :
    (step exState AudioEvent.interrupted).sources = [] ∧
    (∀ u ∈ exState.sources, u ∈ (step exState AudioEvent.interrupted).stopped) ∧
    (step exState AudioEvent.interrupted).nextStartTime = 0 ∧
    (step exState AudioEvent.interrupted).gain.value = 7 / 10 ∧
    (step exState AudioEvent.interrupted).gain.target = 7 / 10 ∧
    (step exState AudioEvent.interrupted).isModelSpeaking = false :=
  C3_interruption_clears exState

/-- One event step preserves the ducking invariant: ramp target 0 while
sources are active, nominal 0.7 while none are. -/
theorem duck_step (st : AudioState) (e : AudioEvent)
    (h : (st.sources ≠ [] → st.gain.target = 0) ∧
      (st.sources = [] → st.gain.target = 7 / 10)) :
    ((step st e).sources ≠ [] → (step st e).gain.target = 0) ∧
    ((step st e).sources = [] → (step st e).gain.target = 7 / 10) := by
  cases e with
  | frame t n id =>
      constructor
      · intro _
        rfl
      · intro hempty
        exfalso
        simp only [step, handleFrame] at hempty
        split at hempty
        · next hmem =>
            rw [hempty] at hmem
            simp at hmem
        · simp at hempty
  | ended id =>
      simp only [step, handleEnded]
      split
      · next hlen =>
          refine ⟨fun hne => absurd ?_ hne, fun _ => rfl⟩
          exact List.length_eq_zero.mp hlen
      · next hlen =>
          have hne : st.sources.erase id ≠ [] := by
            intro hz
            exact hlen (by rw [hz]; rfl)
          have hsrc : st.sources ≠ [] := by
            intro hz
            rw [hz] at hne
            exact hne rfl
          exact ⟨fun _ => h.1 hsrc, fun hz => absurd hz hne⟩
  | interrupted =>
      exact ⟨fun hne => absurd rfl hne, fun _ => rfl⟩

/-- The ducking invariant holds along any event sequence. -/
theorem duck_run (es : List AudioEvent) (st : AudioState)
    (h : (st.sources ≠ [] → st.gain.target = 0) ∧
      (st.sources = [] → st.gain.target = 7 / 10)) :
    ((es.foldl step st).sources ≠ [] → (es.foldl step st).gain.target = 0) ∧
    ((es.foldl step st).sources = [] → (es.foldl step st).gain.target = 7 / 10) := by
  induction es generalizing st with
  | nil => exact h
  | cons e es ih => exact ih (step st e) (duck_step st e h)

/-- C4: in every reachable state of the pipeline, the most recently
scheduled gain target of the secondary source is 0 whenever the active
playback set is non-empty, and equals the nominal 0.7 whenever it is empty
(interruptions are handled atomically, so none is pending between
steps). -/
theorem C4_ducking_invariant (es : List AudioEvent) :
    ((run es).sources ≠ [] → (run es).gain.target = 0) ∧
    ((run es).sources = [] → (run es).gain.target = 7 / 10) :=
  duck_run es initState ⟨fun hne => absurd rfl hne, fun _ => rfl⟩

/-- Witness for C4 after a single inbound frame: the set is non-empty and
the ramp target is 0. -/
theorem C4_ducking_invariant_witness :
    (run [AudioEvent.frame 0 2400 5]).sources ≠ [] ∧
      (run [AudioEvent.frame 0 2400 5]).gain.target = 0 :=
  ⟨by decide, (C4_ducking_invariant [AudioEvent.frame 0 2400 5]).1 (by decide)⟩

end TTTEye
